import Mathlib

/-!
Verification of the crates-index client (`src/lib.rs`) against its
specification.  The development shallowly embeds the library's pure core:

* the line-oriented record codec (`Version`/`Dependency` with serde-style
  field defaulting, hex checksums) — `decodeVersion` / `encodeVersion`;
* the per-crate file parser `Crate.from_slice` (trailing-newline trimming,
  newline splitting, per-line decode, empty-history check);
* the path-shard resolver inside `Index::crate_` — `resolveSegs`;
* the two-pass glob enumeration of `CrateIndexPaths` — `crate_index_paths`;
* the git-mirror existence check and `retrieve_or_update` dispatch.

Byte strings are modelled as `List Nat` (one entry per byte, as the Rust
code operates on byte slices); relative paths as `List (List Nat)`, one
entry per path segment (the Rust code joins segments with the platform
separator).  The filesystem, the JSON tokenizer of `serde_json` and the
git capability are external to the crate; the tokenizer is modelled
concretely (`parseJson`), the filesystem and git state are parameters.
-/

set_option maxRecDepth 4000

deriving instance DecidableEq for Except

namespace CratesIndex

/-- Bytes of a (ASCII) string literal, used to write byte strings readably. -/
def bs (s : String) : List Nat := s.data.map Char.toNat

/-- Rust `u8::to_ascii_lowercase`: bytes in `b'A'..=b'Z'` get 32 added. -/
def asciiLowerByte (b : Nat) : Nat := if 65 ≤ b ∧ b ≤ 90 then b + 32 else b

/-! ## Hex encoding (the `hex` crate, used by `#[serde(with = "hex")]`) -/

/-- Value of one hex digit byte; the `hex` crate accepts both letter cases. -/
def hexVal (b : Nat) : Option Nat :=
  if 48 ≤ b ∧ b ≤ 57 then some (b - 48)
  else if 97 ≤ b ∧ b ≤ 102 then some (b - 87)
  else if 65 ≤ b ∧ b ≤ 70 then some (b - 55)
  else none

/-- Decode a hex byte string into raw bytes; fails on odd length or a
non-hex digit (the `hex` crate's `FromHex`). -/
def hexDecode : List Nat → Option (List Nat)
  | [] => some []
  | [_] => none
  | hi :: lo :: rest =>
    match hexVal hi, hexVal lo, hexDecode rest with
    | some hv, some lv, some r => some ((hv * 16 + lv) :: r)
    | _, _, _ => none

/-- A nibble as a lowercase hex digit byte (the `hex` crate encodes lowercase). -/
def hexDigitByte (n : Nat) : Nat := if n < 10 then 48 + n else 87 + n

/-- Encode raw bytes as a lowercase hex byte string. -/
def hexEncode : List Nat → List Nat
  | [] => []
  | b :: rest => hexDigitByte (b / 16) :: hexDigitByte (b % 16) :: hexEncode rest

/-! ## JSON structural values and the tokenizer capability

`serde_json` maps a byte span to a structural value; the claims touching
raw bytes only need that capability on concrete inputs, so it is modelled
as a fuel-indexed recursive descent over the byte list. -/

inductive Json where
  | null
  | bool (b : Bool)
  | num (n : Int)
  | str (s : List Nat)
  | arr (xs : List Json)
  | obj (fields : List (List Nat × Json))

/-- JSON whitespace bytes: space, tab, LF, CR. -/
def skipWs (input : List Nat) : List Nat :=
  input.dropWhile (fun b => b == 32 || b == 9 || b == 10 || b == 13)

/-- Parse the body of a JSON string after the opening quote, returning the
content and the rest.  Simple escapes are mapped; `\uXXXX` escapes are out
of scope of every claim and are not interpreted. -/
def parseStrBody : Nat → List Nat → Option (List Nat × List Nat)
  | 0, _ => none
  | _ + 1, [] => none
  | f + 1, b :: rest =>
    if b = 34 then some ([], rest)
    else if b = 92 then
      match rest with
      | [] => none
      | e :: rest2 =>
        match parseStrBody f rest2 with
        | none => none
        | some (s, r) =>
          some ((if e = 110 then 10 else if e = 116 then 9 else if e = 114 then 13 else e) :: s, r)
    else
      match parseStrBody f rest with
      | none => none
      | some (s, r) => some (b :: s, r)

/-- Leading run of decimal digit bytes. -/
def takeDigits : List Nat → List Nat × List Nat
  | [] => ([], [])
  | b :: rest =>
    if 48 ≤ b ∧ b ≤ 57 then
      match takeDigits rest with
      | (ds, r) => (b :: ds, r)
    else ([], b :: rest)

def digitsToNat (ds : List Nat) : Nat := ds.foldl (fun acc d => acc * 10 + (d - 48)) 0

/-- Mode of the recursive-descent core: a value, object members, array items. -/
inductive PMode where
  | val
  | members
  | items

/-- Result of one core step. -/
inductive PRes where
  | jv (j : Json)
  | jms (ms : List (List Nat × Json))
  | jxs (xs : List Json)

/-- Recursive-descent JSON reader (tokenizer capability), structural on fuel. -/
def parseCore : Nat → PMode → List Nat → Option (PRes × List Nat)
  | 0, _, _ => none
  | f + 1, .val, input =>
    match skipWs input with
    | [] => none
    | b :: rest =>
      if b = 34 then
        match parseStrBody f rest with
        | some (s, r) => some (.jv (.str s), r)
        | none => none
      else if b = 123 then
        match skipWs rest with
        | 125 :: r => some (.jv (.obj []), r)
        | _ =>
          match parseCore f .members rest with
          | some (.jms ms, r) => some (.jv (.obj ms), r)
          | _ => none
      else if b = 91 then
        match skipWs rest with
        | 93 :: r => some (.jv (.arr []), r)
        | _ =>
          match parseCore f .items rest with
          | some (.jxs xs, r) => some (.jv (.arr xs), r)
          | _ => none
      else if b = 116 then
        match rest with
        | 114 :: 117 :: 101 :: r => some (.jv (.bool true), r)
        | _ => none
      else if b = 102 then
        match rest with
        | 97 :: 108 :: 115 :: 101 :: r => some (.jv (.bool false), r)
        | _ => none
      else if b = 110 then
        match rest with
        | 117 :: 108 :: 108 :: r => some (.jv .null, r)
        | _ => none
      else if b = 45 then
        match takeDigits rest with
        | ([], _) => none
        | (ds, r) => some (.jv (.num (-(digitsToNat ds : Int))), r)
      else if 48 ≤ b ∧ b ≤ 57 then
        match takeDigits (b :: rest) with
        | (ds, r) => some (.jv (.num (digitsToNat ds)), r)
      else none
  | f + 1, .members, input =>
    match skipWs input with
    | 34 :: rest =>
      match parseStrBody f rest with
      | none => none
      | some (k, r1) =>
        match skipWs r1 with
        | 58 :: r2 =>
          match parseCore f .val r2 with
          | some (.jv v, r3) =>
            (match skipWs r3 with
             | 44 :: r4 =>
               match parseCore f .members r4 with
               | some (.jms ms, r5) => some (.jms ((k, v) :: ms), r5)
               | _ => none
             | 125 :: r4 => some (.jms [(k, v)], r4)
             | _ => none)
          | _ => none
        | _ => none
    | _ => none
  | f + 1, .items, input =>
    match parseCore f .val input with
    | some (.jv v, r1) =>
      (match skipWs r1 with
       | 44 :: r2 =>
         match parseCore f .items r2 with
         | some (.jxs xs, r3) => some (.jxs (v :: xs), r3)
         | _ => none
       | 93 :: r2 => some (.jxs [v], r2)
       | _ => none)
    | _ => none

/-- Read one complete JSON value from a byte string; trailing content other
than whitespace makes the read fail, as in `serde_json::from_slice`. -/
def parseJson (bytes : List Nat) : Option Json :=
  match parseCore (2 * bytes.length + 4) .val bytes with
  | some (.jv j, rest) => if skipWs rest = [] then some j else none
  | _ => none

/-! ## Data model (`Version`, `Dependency`, `DependencyKind`, `Crate`) -/

/-- `enum DependencyKind { Normal, Dev, Build }`, `#[serde(rename_all = "lowercase")]`,
with `Default` being `Normal`. -/
inductive DependencyKind where
  | normal
  | dev
  | build
deriving DecidableEq

/-- `struct Dependency`: `kind` and `package` carry
`#[serde(skip_serializing_if = "Option::is_none")]`. -/
structure Dependency where
  name : List Nat
  req : List Nat
  features : List (List Nat)
  optional : Bool
  default_features : Bool
  target : Option (List Nat)
  kind : Option DependencyKind
  package : Option (List Nat)
deriving DecidableEq

/-- Method `Dependency::kind()`: `self.kind.unwrap_or_default()`. -/
def Dependency.kindOrDefault (d : Dependency) : DependencyKind :=
  d.kind.getD .normal

/-- Method `Dependency::package()`. -/
def Dependency.packageOpt (d : Dependency) : Option (List Nat) := d.package

/-- Method `Dependency::crate_name()`: the `package` field if present,
else the `name` field. -/
def Dependency.crate_name (d : Dependency) : List Nat :=
  match d.package with
  | some s => s
  | none => d.name

/-- `struct Version`: `cksum` is `[u8; 32]` stored via `#[serde(with = "hex")]`;
the `features` map is kept as its entry list. -/
structure Version where
  name : List Nat
  vers : List Nat
  deps : List Dependency
  cksum : List Nat
  features : List (List Nat × List (List Nat))
  yanked : Bool
deriving DecidableEq

/-- `struct Crate { versions: Box<[Version]> }`. -/
structure Crate where
  versions : List Version
deriving DecidableEq

/-! ## Record codec (`serde` derive for `Version`/`Dependency`) -/

inductive DecodeError where
  | badJson
  | missingField (key : List Nat)
  | badType (key : List Nat)
  | badKind
  | badChecksum
deriving DecidableEq

/-- First binding of a key in a JSON object's field list. -/
def jLookup : List (List Nat × Json) → List Nat → Option Json
  | [], _ => none
  | (k, v) :: rest, key => if k = key then some v else jLookup rest key

/-- Required string field. -/
def reqStr (fields : List (List Nat × Json)) (key : List Nat) : Except DecodeError (List Nat) :=
  match jLookup fields key with
  | some (.str s) => .ok s
  | some _ => .error (.badType key)
  | none => .error (.missingField key)

/-- Required boolean field. -/
def reqBool (fields : List (List Nat × Json)) (key : List Nat) : Except DecodeError Bool :=
  match jLookup fields key with
  | some (.bool b) => .ok b
  | some _ => .error (.badType key)
  | none => .error (.missingField key)

/-- Required array field. -/
def reqArr (fields : List (List Nat × Json)) (key : List Nat) : Except DecodeError (List Json) :=
  match jLookup fields key with
  | some (.arr xs) => .ok xs
  | some _ => .error (.badType key)
  | none => .error (.missingField key)

/-- Required field of any shape. -/
def reqField (fields : List (List Nat × Json)) (key : List Nat) : Except DecodeError Json :=
  match jLookup fields key with
  | some j => .ok j
  | none => .error (.missingField key)

/-- `Option<String>`-typed field: missing or `null` decodes to `None`. -/
def optStr (fields : List (List Nat × Json)) (key : List Nat) :
    Except DecodeError (Option (List Nat)) :=
  match jLookup fields key with
  | none => .ok none
  | some .null => .ok none
  | some (.str s) => .ok (some s)
  | some _ => .error (.badType key)

/-- `DependencyKind` from its lowercase wire string. -/
def kindFromJson : Json → Except DecodeError DependencyKind
  | .str s =>
    if s = bs ("normal") then .ok .normal
    else if s = bs ("dev") then .ok .dev
    else if s = bs ("build") then .ok .build
    else .error .badKind
  | _ => .error .badKind

/-- `Option<DependencyKind>`-typed field: missing or `null` decodes to `None`. -/
def optKindField (fields : List (List Nat × Json)) :
    Except DecodeError (Option DependencyKind) :=
  match jLookup fields (bs ("kind")) with
  | none => .ok none
  | some .null => .ok none
  | some j =>
    match kindFromJson j with
    | .ok k => .ok (some k)
    | .error e => .error e

/-- Fail-fast map over a list, mirroring the decode loops (first error wins). -/
def mapE {α β : Type} (g : α → Except DecodeError β) : List α → Except DecodeError (List β)
  | [] => .ok []
  | x :: xs =>
    match g x with
    | .error e => .error e
    | .ok y =>
      match mapE g xs with
      | .error e => .error e
      | .ok ys => .ok (y :: ys)

/-- A JSON string. -/
def strOf : Json → Except DecodeError (List Nat)
  | .str s => .ok s
  | _ => .error .badJson

/-- A JSON array of strings. -/
def strListFromJson : Json → Except DecodeError (List (List Nat))
  | .arr xs => mapE strOf xs
  | _ => .error .badJson

/-- The `features` map of a `Version`: a JSON object whose values are string
arrays, kept in entry order. -/
def featuresFromJson : Json → Except DecodeError (List (List Nat × List (List Nat)))
  | .obj fields =>
    mapE (fun kv =>
      match strListFromJson kv.2 with
      | .error e => .error e
      | .ok vs => .ok (kv.1, vs)) fields
  | _ => .error (.badType (bs ("features")))

/-- The `cksum` field: a hex string that must decode to exactly 32 bytes
(`#[serde(with = "hex")]` into `[u8; 32]`). -/
def cksumFromHex (s : List Nat) : Except DecodeError (List Nat) :=
  match hexDecode s with
  | some bytes => if bytes.length = 32 then .ok bytes else .error .badChecksum
  | none => .error .badChecksum

/-- Decode one `Dependency` from a structural JSON value. -/
def decodeDependency (j : Json) : Except DecodeError Dependency :=
  match j with
  | .obj fields => do
    let name ← reqStr fields (bs ("name"))
    let req ← reqStr fields (bs ("req"))
    let featuresJ ← reqField fields (bs ("features"))
    let features ← strListFromJson featuresJ
    let optional ← reqBool fields (bs ("optional"))
    let default_features ← reqBool fields (bs ("default_features"))
    let target ← optStr fields (bs ("target"))
    let kind ← optKindField fields
    let package ← optStr fields (bs ("package"))
    pure { name := name, req := req, features := features, optional := optional,
           default_features := default_features, target := target, kind := kind,
           package := package }
  | _ => .error .badJson

/-- Decode one `Version` record from a structural JSON value. -/
def decodeVersion (j : Json) : Except DecodeError Version :=
  match j with
  | .obj fields => do
    let name ← reqStr fields (bs ("name"))
    let vers ← reqStr fields (bs ("vers"))
    let depsJ ← reqArr fields (bs ("deps"))
    let deps ← mapE decodeDependency depsJ
    let cksumS ← reqStr fields (bs ("cksum"))
    let cksum ← cksumFromHex cksumS
    let featuresJ ← reqField fields (bs ("features"))
    let features ← featuresFromJson featuresJ
    let yanked ← reqBool fields (bs ("yanked"))
    pure { name := name, vers := vers, deps := deps, cksum := cksum,
           features := features, yanked := yanked }
  | _ => .error .badJson

/-- Wire string of a `DependencyKind` (`rename_all = "lowercase"`). -/
def kindToJson : DependencyKind → Json
  | .normal => .str (bs ("normal"))
  | .dev => .str (bs ("dev"))
  | .build => .str (bs ("build"))

/-- Serialize a `Dependency`; `kind`/`package` are omitted exactly when the
stored `Option` is `None` (`skip_serializing_if = "Option::is_none"`),
`target` is always emitted (`null` when `None`). -/
def encodeDependency (d : Dependency) : Json :=
  .obj ([(bs ("name"), .str d.name), (bs ("req"), .str d.req),
         (bs ("features"), .arr (d.features.map .str)),
         (bs ("optional"), .bool d.optional),
         (bs ("default_features"), .bool d.default_features),
         (bs ("target"), match d.target with | none => .null | some t => .str t)]
    ++ (match d.kind with | none => [] | some k => [(bs ("kind"), kindToJson k)])
    ++ (match d.package with | none => [] | some p => [(bs ("package"), .str p)]))

/-- Serialize a `Version` in field declaration order. -/
def encodeVersion (v : Version) : Json :=
  .obj [(bs ("name"), .str v.name), (bs ("vers"), .str v.vers),
        (bs ("deps"), .arr (v.deps.map encodeDependency)),
        (bs ("cksum"), .str (hexEncode v.cksum)),
        (bs ("features"), .obj (v.features.map (fun kv => (kv.1, Json.arr (kv.2.map .str))))),
        (bs ("yanked"), .bool v.yanked)]

/-- `serde_json::from_slice::<Version>` on one line: tokenize, then decode. -/
def serdeFromSlice (bytes : List Nat) : Except DecodeError Version :=
  match parseJson bytes with
  | none => .error .badJson
  | some j => decodeVersion j

/-! ## `Crate::from_slice` and accessors -/

/-- Error type of `Crate::from_slice` (both variants are `io::Error` of kind
`Other` in Rust, with distinguishable payloads: a wrapped decode error
versus the literal message about missing versions). -/
inductive FromSliceError where
  | decodeErr (e : DecodeError)
  | emptyHistory
deriving DecidableEq

/-- The trimming loop of `from_slice`:
`while bytes.last() == Some(&b'\n') { bytes = &bytes[..len-1] }`. -/
def trimNewlines (bytes : List Nat) : List Nat :=
  (bytes.reverse.dropWhile (fun b => b == 10)).reverse

/-- `slice::split` on newline bytes: on an empty slice it yields one empty
piece, and the result is never an empty list of pieces. -/
def splitNl : List Nat → List (List Nat)
  | [] => [[]]
  | b :: rest =>
    if b == 10 then [] :: splitNl rest
    else
      match splitNl rest with
      | [] => [[b]]
      | l :: ls => (b :: l) :: ls

/-- `Crate::from_slice`, parameterized by the per-line decode capability
(`serde_json::from_slice::<Version>`, concretely `serdeFromSlice`):
trim trailing newlines, split on newlines, decode each line in order
(first error propagates), then reject an empty version list. -/
def Crate.from_slice (dec : List Nat → Except DecodeError Version) (bytes : List Nat) :
    Except FromSliceError Crate :=
  match mapE dec (splitNl (trimNewlines bytes)) with
  | .error e => .error (.decodeErr e)
  | .ok versions =>
    if versions.isEmpty then .error .emptyHistory
    else .ok { versions := versions }

/-- `Crate::earliest_version`: `&self.versions[0]`; total only under the
non-empty invariant. -/
def Crate.earliest_version (c : Crate) (h : c.versions ≠ []) : Version :=
  c.versions.get ⟨0, List.length_pos.mpr h⟩

/-- `Crate::latest_version`: `&self.versions[self.versions.len() - 1]`. -/
def Crate.latest_version (c : Crate) (h : c.versions ≠ []) : Version :=
  c.versions.get ⟨c.versions.length - 1, Nat.sub_lt (List.length_pos.mpr h) Nat.one_pos⟩

/-! ## `Index::crate_`: shard resolution and lookup -/

/-- The relative-path computation inside `Index::crate_`, as path segments
(the Rust code joins them with `MAIN_SEPARATOR`): `None` for a non-ASCII
or empty name, else the bucket shape selected by the length of the
ASCII-lowercased name. -/
def resolveSegs (name : List Nat) : Option (List (List Nat)) :=
  if name.all (fun b => decide (b < 128)) then
    match (name.map asciiLowerByte).length with
    | 0 => none
    | 1 => some [bs ("1"), name.map asciiLowerByte]
    | 2 => some [bs ("2"), name.map asciiLowerByte]
    | 3 => some [bs ("3"), (name.map asciiLowerByte).take 1, name.map asciiLowerByte]
    | _ => some [(name.map asciiLowerByte).take 2,
                 ((name.map asciiLowerByte).drop 2).take 2,
                 name.map asciiLowerByte]
  else none

/-- `Index::crate_`, over a filesystem capability mapping a segment path to
the file's bytes when it exists: resolve the shard path; if the file
exists, parse it and turn the result into an `Option` via `.ok()`
(discarding any parse error); else `None`. -/
def crate_ (fs : List (List Nat) → Option (List Nat))
    (dec : List Nat → Except DecodeError Version) (name : List Nat) : Option Crate :=
  match resolveSegs name with
  | none => none
  | some rel =>
    match fs rel with
    | none => none
    | some bytes => (Crate.from_slice dec bytes).toOption

/-! ## `CrateIndexPaths` / `Crates`: two-pass glob enumeration -/

/-- A `*` glob segment with `require_literal_leading_dot = true`: matches any
segment not starting with a dot byte. -/
def starSeg (seg : List Nat) : Bool :=
  match seg with
  | [] => true
  | b :: _ => !(b == 46)

/-- Pattern `<root>/*/*/*` applied to a root-relative path. -/
def matchesPassA (p : List (List Nat)) : Bool :=
  match p with
  | [a, b, c] => starSeg a && starSeg b && starSeg c
  | _ => false

/-- Pattern `<root>/[12]/*` applied to a root-relative path. -/
def matchesPassB (p : List (List Nat)) : Bool :=
  match p with
  | [a, b] => (a == bs ("1") || a == bs ("2")) && starSeg b
  | _ => false

/-- `CrateIndexPaths::new`: the chain of the `*/*/*` glob pass and then the
`[12]/*` glob pass over the tree's entries (given in the listing order of
the underlying glob capability). -/
def crate_index_paths (files : List (List (List Nat))) : List (List (List Nat)) :=
  files.filter matchesPassA ++ files.filter matchesPassB

/-- The `Crates` iterator: walk the enumerated paths; for each, read and
parse (`Crate::new`), silently skipping any path whose read or parse fails. -/
def cratesList (fs : List (List Nat) → Option (List Nat))
    (dec : List Nat → Except DecodeError Version) :
    List (List (List Nat)) → List Crate
  | [] => []
  | p :: rest =>
    match fs p with
    | none => cratesList fs dec rest
    | some bytes =>
      match Crate.from_slice dec bytes with
      | .ok c => c :: cratesList fs dec rest
      | .error _ => cratesList fs dec rest

/-! ## Mirror sync: `Index::exists` and `Index::retrieve_or_update` -/

def INDEX_GIT_URL : List Nat := bs ("https://github.com/rust-lang/crates.io-index")

/-- Result of `Remote::url()`. -/
structure Remote where
  url : Option (List Nat)

/-- A discovered repository: the result of `find_remote("origin")`. -/
structure Repository where
  origin : Option Remote

/-- The git capability's observable state at the configured root:
what `Repository::discover` returns. -/
structure GitEnv where
  discovered : Option Repository

/-- `Index::exists`: a repository can be discovered, and either there is no
`origin` remote, or the origin has no URL, or its URL is the canonical
index URL (the `map_or(true, ...)` chain). -/
def existsIndex (env : GitEnv) : Bool :=
  match env.discovered with
  | none => false
  | some repo =>
    match repo.origin with
    | none => true
    | some remote =>
      match remote.url with
      | none => true
      | some url => url == INDEX_GIT_URL

/-- The action `Index::retrieve_or_update` dispatches to. -/
inductive SyncAction where
  | update
  | retrieve
deriving DecidableEq

/-- `Index::retrieve_or_update`: `if self.exists() { self.update() } else { self.retrieve() }`. -/
def retrieve_or_update (env : GitEnv) : SyncAction :=
  if existsIndex env then .update else .retrieve

/-! ## Helper lemmas -/

lemma asciiLowerByte_lt_128 (b : Nat) : asciiLowerByte b < 128 ↔ b < 128 := by
  unfold asciiLowerByte; split <;> omega

lemma all_ascii_lower (xs : List Nat) :
    (xs.map asciiLowerByte).all (fun b => decide (b < 128))
      = xs.all (fun b => decide (b < 128)) := by
  induction xs with
  | nil => rfl
  | cons b rest ih =>
    simp [List.all_cons, ih, decide_eq_decide, asciiLowerByte_lt_128]

lemma all_ascii_iff (name : List Nat) :
    name.all (fun b => decide (b < 128)) = true ↔ ∀ b ∈ name, b < 128 := by
  simp [List.all_eq_true]

lemma resolveSegs_of_ascii (name : List Nat) (hne : name ≠ [])
    (hascii : ∀ b ∈ name, b < 128) :
    resolveSegs name = some (
      if name.length = 1 then [bs ("1"), name.map asciiLowerByte]
      else if name.length = 2 then [bs ("2"), name.map asciiLowerByte]
      else if name.length = 3 then
        [bs ("3"), (name.map asciiLowerByte).take 1, name.map asciiLowerByte]
      else [(name.map asciiLowerByte).take 2,
            ((name.map asciiLowerByte).drop 2).take 2,
            name.map asciiLowerByte]) := by
  have hall : name.all (fun b => decide (b < 128)) = true := (all_ascii_iff name).mpr hascii
  rcases name with _ | ⟨a, _ | ⟨b, _ | ⟨c, _ | ⟨d, rest⟩⟩⟩⟩
  · exact absurd rfl hne
  · simp only [resolveSegs, hall]; rfl
  · simp only [resolveSegs, hall]; rfl
  · simp only [resolveSegs, hall]; rfl
  · simp only [resolveSegs, hall]; rfl

lemma ascii_of_resolveSegs_some {name : List Nat} {p : List (List Nat)}
    (h : resolveSegs name = some p) :
    name.all (fun b => decide (b < 128)) = true := by
  unfold resolveSegs at h
  split at h
  · assumption
  · cases h

/-! ## C1 -/

/-- C1: the shard resolution of `Index::crate_` returns no path for an empty
or non-ASCII name (and the lookup then returns `None`); otherwise, with `n`
the ASCII-lowercased name, the path is `1/<n>`, `2/<n>`, `3/<n[0]>/<n>` or
`<n[0..2]>/<n[2..4]>/<n>` by length; and the resolution is a pure function
of the lowercased form, so names differing only in ASCII case resolve to
the same path. -/
theorem c1_resolve (name : List Nat) :
    ((name = [] ∨ ¬ ∀ b ∈ name, b < 128) →
      resolveSegs name = none ∧ ∀ fs dec, crate_ fs dec name = none)
    ∧ (name ≠ [] → (∀ b ∈ name, b < 128) →
        resolveSegs name = some (
          if name.length = 1 then [bs ("1"), name.map asciiLowerByte]
          else if name.length = 2 then [bs ("2"), name.map asciiLowerByte]
          else if name.length = 3 then
            [bs ("3"), (name.map asciiLowerByte).take 1, name.map asciiLowerByte]
          else [(name.map asciiLowerByte).take 2,
                ((name.map asciiLowerByte).drop 2).take 2,
                name.map asciiLowerByte]))
    ∧ (∀ m : List Nat, m.map asciiLowerByte = name.map asciiLowerByte →
        resolveSegs m = resolveSegs name) := by
  refine ⟨?_, resolveSegs_of_ascii name, ?_⟩
  · intro h
    have hres : resolveSegs name = none := by
      rcases h with rfl | h
      · rfl
      · cases hb : name.all (fun b => decide (b < 128)) with
        | false => simp [resolveSegs, hb]
        | true => exact absurd ((all_ascii_iff name).mp hb) h
    exact ⟨hres, fun fs dec => by simp [crate_, hres]⟩
  · intro m hm
    have hcond : m.all (fun b => decide (b < 128))
        = name.all (fun b => decide (b < 128)) := by
      rw [← all_ascii_lower m, hm, all_ascii_lower name]
    simp only [resolveSegs, hm, hcond]

/-- C1 witness: a mixed-case four-letter name resolves to its lowercase
two-by-two bucket path, a non-ASCII byte and the empty name resolve to
nothing. -/
theorem c1_resolve_witness :
    resolveSegs (bs ("AbCd")) = some [bs ("ab"), bs ("cd"), bs ("abcd")]
    ∧ resolveSegs [204] = none
    ∧ resolveSegs [] = none
    ∧ resolveSegs (bs ("AbCd")) = resolveSegs (bs ("aBcD")) := by
  refine ⟨?_, ?_, ?_, ?_⟩
  · exact ((c1_resolve (bs ("AbCd"))).2.1 (by decide) (by decide)).trans (by decide)
  · exact ((c1_resolve [204]).1 (Or.inr (by decide))).1
  · exact ((c1_resolve []).1 (Or.inl rfl)).1
  · exact (c1_resolve (bs ("aBcD"))).2.2 (bs ("AbCd")) (by decide)

/-! ## C10 -/

lemma dropWhile_replicate_nl (k : Nat) (xs : List Nat) :
    (List.replicate k 10 ++ xs).dropWhile (fun b => b == 10)
      = xs.dropWhile (fun b => b == 10) := by
  induction k with
  | zero => rfl
  | succ k ih => simp [List.replicate_succ, List.dropWhile_cons, ih]

lemma trimNewlines_append_replicate (b : List Nat) (k : Nat) :
    trimNewlines (b ++ List.replicate k 10) = trimNewlines b := by
  unfold trimNewlines
  rw [List.reverse_append, List.reverse_replicate, dropWhile_replicate_nl]

/-- C10: `Crate::from_slice` strips every trailing newline byte, so a file
with any number of trailing newlines parses exactly like the same file
with none. -/
theorem c10_trailing_newlines (dec : List Nat → Except DecodeError Version)
    (b : List Nat) (k : Nat) :
    Crate.from_slice dec (b ++ List.replicate k 10) = Crate.from_slice dec b
    ∧ trimNewlines (b ++ List.replicate k 10) = trimNewlines b := by
  refine ⟨?_, trimNewlines_append_replicate b k⟩
  unfold Crate.from_slice
  rw [trimNewlines_append_replicate]

/-! ## C9 -/

/-- The renamed dependency of the claim's example:
`serde_lib = {version = "1", package = "serde"}`. -/
def depSerde : Dependency :=
  { name := bs ("serde_lib"), req := bs ("1"), features := [], optional := false,
    default_features := true, target := none, kind := none,
    package := some (bs ("serde")) }

/-- C9: `Dependency::crate_name` returns the `package` field when present and
the `name` field otherwise; in particular the `serde_lib`-renamed `serde`
dependency reports `crate_name = serde` while `name = serde_lib`. -/
theorem c9_alias (d : Dependency) :
    ((d.package = none ∧ d.crate_name = d.name)
      ∨ (∃ p, d.package = some p ∧ d.crate_name = p))
    ∧ (depSerde.crate_name = bs ("serde") ∧ depSerde.name = bs ("serde_lib")
        ∧ depSerde.package = some (bs ("serde"))) := by
  constructor
  · cases hp : d.package with
    | none => exact Or.inl ⟨rfl, by simp [Dependency.crate_name, hp]⟩
    | some p => exact Or.inr ⟨p, rfl, by simp [Dependency.crate_name, hp]⟩
  · exact ⟨rfl, rfl, rfl⟩

/-! ## C8 -/

/-- Modelled from the spec: the exists-condition exactly as the claim words
it — a working copy is discovered AND (there is no configured origin
remote OR the origin's URL equals the canonical upstream URL).  Used to
compare the claim's condition with the code's `Index::exists`. -/
def existsClaimCond (env : GitEnv) : Bool :=
  match env.discovered with
  | none => false
  | some repo =>
    match repo.origin with
    | none => true
    | some remote => remote.url == some INDEX_GIT_URL

/-- A discovered repository whose origin remote exists but reports no URL. -/
def envNoUrl : GitEnv := { discovered := some { origin := some { url := none } } }

/-- C8 counterexample: with an origin remote that has no URL, the code's
`exists()` returns `true`, but the claim's condition (no origin, or origin
URL equal to the canonical URL) is false — the stated iff fails. -/
theorem c8_counterexample :
    existsIndex envNoUrl = true ∧ existsClaimCond envNoUrl = false
    ∧ (envNoUrl.discovered.map (fun r => r.origin) = some (some { url := none })) := by
  exact ⟨rfl, rfl, rfl⟩

/-- C8 amended: `retrieve_or_update` dispatches to `update` exactly when
`exists()` holds and to `retrieve` otherwise; and `exists()` is true iff a
repository is discovered and (it has no origin remote, or the origin has
no URL, or the origin's URL equals the canonical upstream URL). -/
theorem c8_amended (env : GitEnv) :
    (retrieve_or_update env = .update ↔ existsIndex env = true)
    ∧ (retrieve_or_update env = .retrieve ↔ existsIndex env = false)
    ∧ (existsIndex env = true ↔
        ∃ repo, env.discovered = some repo ∧
          (repo.origin = none ∨ ∃ r, repo.origin = some r ∧
            (r.url = none ∨ r.url = some INDEX_GIT_URL))) := by
  rcases env with ⟨_ | ⟨_ | ⟨_ | u⟩⟩⟩
  · simp [retrieve_or_update, existsIndex]
  · simp [retrieve_or_update, existsIndex]
  · simp [retrieve_or_update, existsIndex]
  · by_cases hu : u = INDEX_GIT_URL <;>
      simp [retrieve_or_update, existsIndex, hu]

/-! ## C6 -/

lemma starSeg_of_head {seg : List Nat} (h : seg.head? ≠ some 46) : starSeg seg = true := by
  cases seg with
  | nil => rfl
  | cons b rest =>
    have hb : b ≠ 46 := by simpa using h
    simp [starSeg, hb]

lemma resolveSegs_len1 {n : List Nat} {p : List (List Nat)}
    (h : resolveSegs n = some p) (hl : n.length = 1) :
    p = [bs ("1"), n.map asciiLowerByte] := by
  have hascii := (all_ascii_iff n).mp (ascii_of_resolveSegs_some h)
  have hne : n ≠ [] := by intro e; subst e; simp at hl
  rw [resolveSegs_of_ascii n hne hascii] at h
  simp [hl] at h
  exact h.symm

lemma resolveSegs_len2 {n : List Nat} {p : List (List Nat)}
    (h : resolveSegs n = some p) (hl : n.length = 2) :
    p = [bs ("2"), n.map asciiLowerByte] := by
  have hascii := (all_ascii_iff n).mp (ascii_of_resolveSegs_some h)
  have hne : n ≠ [] := by intro e; subst e; simp at hl
  rw [resolveSegs_of_ascii n hne hascii] at h
  simp [hl] at h
  exact h.symm

lemma resolveSegs_len3 {n : List Nat} {p : List (List Nat)}
    (h : resolveSegs n = some p) (hl : n.length = 3) :
    p = [bs ("3"), (n.map asciiLowerByte).take 1, n.map asciiLowerByte] := by
  have hascii := (all_ascii_iff n).mp (ascii_of_resolveSegs_some h)
  have hne : n ≠ [] := by intro e; subst e; simp at hl
  rw [resolveSegs_of_ascii n hne hascii] at h
  simp [hl] at h
  exact h.symm

lemma resolveSegs_len4 {n : List Nat} {p : List (List Nat)}
    (h : resolveSegs n = some p) (hl : 4 ≤ n.length) :
    p = [(n.map asciiLowerByte).take 2, ((n.map asciiLowerByte).drop 2).take 2,
         n.map asciiLowerByte] := by
  have hascii := (all_ascii_iff n).mp (ascii_of_resolveSegs_some h)
  have hne : n ≠ [] := by intro e; subst e; simp at hl
  have e1 : n.length ≠ 1 := by omega
  have e2 : n.length ≠ 2 := by omega
  have e3 : n.length ≠ 3 := by omega
  rw [resolveSegs_of_ascii n hne hascii] at h
  simp [e1, e2, e3] at h
  exact h.symm

/-- C6: over a tree holding one entry of each bucket shape (obtained from
the resolver at names of lengths 1, 2, 3 and 4+, none of whose segments
starts with a dot), the chained two-pass enumeration yields exactly those
four paths, the `*/*/*` pass matching both the 4+-char and the 3-char
shapes and preceding the `[12]/*` pass's 1- and 2-char shapes. -/
theorem c6_enumeration (n1 n2 n3 n4 : List Nat) (p1 p2 p3 p4 : List (List Nat))
    (h1 : resolveSegs n1 = some p1) (l1 : n1.length = 1)
    (h2 : resolveSegs n2 = some p2) (l2 : n2.length = 2)
    (h3 : resolveSegs n3 = some p3) (l3 : n3.length = 3)
    (h4 : resolveSegs n4 = some p4) (l4 : 4 ≤ n4.length)
    (hdot : ∀ seg ∈ p1 ++ (p2 ++ (p3 ++ p4)), seg.head? ≠ some 46) :
    crate_index_paths [p1, p2, p3, p4] = [p3, p4, p1, p2]
    ∧ matchesPassA p3 = true ∧ matchesPassA p4 = true
    ∧ matchesPassB p1 = true ∧ matchesPassB p2 = true
    ∧ matchesPassA p1 = false ∧ matchesPassA p2 = false
    ∧ matchesPassB p3 = false ∧ matchesPassB p4 = false := by
  obtain rfl := resolveSegs_len1 h1 l1
  obtain rfl := resolveSegs_len2 h2 l2
  obtain rfl := resolveSegs_len3 h3 l3
  obtain rfl := resolveSegs_len4 h4 l4
  have s1 : starSeg (n1.map asciiLowerByte) = true := starSeg_of_head (hdot _ (by simp))
  have s2 : starSeg (n2.map asciiLowerByte) = true := starSeg_of_head (hdot _ (by simp))
  have s3a : starSeg ((n3.map asciiLowerByte).take 1) = true :=
    starSeg_of_head (hdot _ (by simp))
  have s3b : starSeg (n3.map asciiLowerByte) = true := starSeg_of_head (hdot _ (by simp))
  have s4a : starSeg ((n4.map asciiLowerByte).take 2) = true :=
    starSeg_of_head (hdot _ (by simp))
  have s4b : starSeg (((n4.map asciiLowerByte).drop 2).take 2) = true :=
    starSeg_of_head (hdot _ (by simp))
  have s4c : starSeg (n4.map asciiLowerByte) = true := starSeg_of_head (hdot _ (by simp))
  have a3 : matchesPassA [bs ("3"), (n3.map asciiLowerByte).take 1,
      n3.map asciiLowerByte] = true := by
    simp [matchesPassA, s3a, s3b]; rfl
  have a4 : matchesPassA [(n4.map asciiLowerByte).take 2,
      ((n4.map asciiLowerByte).drop 2).take 2, n4.map asciiLowerByte] = true := by
    simp [matchesPassA, s4a, s4b, s4c]
  have b1 : matchesPassB [bs ("1"), n1.map asciiLowerByte] = true := by
    simp [matchesPassB, s1]
  have b2 : matchesPassB [bs ("2"), n2.map asciiLowerByte] = true := by
    simp [matchesPassB, s2]
  have a1 : matchesPassA [bs ("1"), n1.map asciiLowerByte] = false := rfl
  have a2 : matchesPassA [bs ("2"), n2.map asciiLowerByte] = false := rfl
  have b3 : matchesPassB [bs ("3"), (n3.map asciiLowerByte).take 1,
      n3.map asciiLowerByte] = false := rfl
  have b4 : matchesPassB [(n4.map asciiLowerByte).take 2,
      ((n4.map asciiLowerByte).drop 2).take 2, n4.map asciiLowerByte] = false := rfl
  refine ⟨?_, a3, a4, b1, b2, a1, a2, b3, b4⟩
  simp [crate_index_paths, List.filter_cons, a3, a4, b1, b2, a1, a2, b3, b4]

/-- C6 witness: the concrete fixture with names `a`, `ab`, `abc`, `abcd`. -/
theorem c6_enumeration_witness :
    crate_index_paths
        [[bs ("1"), bs ("a")], [bs ("2"), bs ("ab")],
         [bs ("3"), bs ("a"), bs ("abc")], [bs ("ab"), bs ("cd"), bs ("abcd")]]
      = [[bs ("3"), bs ("a"), bs ("abc")], [bs ("ab"), bs ("cd"), bs ("abcd")],
         [bs ("1"), bs ("a")], [bs ("2"), bs ("ab")]] := by
  have h := c6_enumeration (bs ("a")) (bs ("ab")) (bs ("abc")) (bs ("abcd"))
    [bs ("1"), bs ("a")] [bs ("2"), bs ("ab")]
    [bs ("3"), bs ("a"), bs ("abc")] [bs ("ab"), bs ("cd"), bs ("abcd")]
    (by decide) (by decide) (by decide) (by decide)
    (by decide) (by decide) (by decide) (by decide) (by decide)
  exact h.1

/-! ## Round-trip lemmas for the record codec -/

lemma ok_bind {a b : Type} (x : a) (f : a → Except DecodeError b) :
    (Except.ok x >>= f) = f x := rfl

lemma err_bind {a b : Type} (e : DecodeError) (f : a → Except DecodeError b) :
    (Except.error e >>= f : Except DecodeError b) = .error e := rfl

lemma mapE_map_ok {a b : Type} (f : a → b) (g : b → Except DecodeError a) (xs : List a)
    (h : ∀ x ∈ xs, g (f x) = .ok x) : mapE g (xs.map f) = .ok xs := by
  induction xs with
  | nil => rfl
  | cons x rest ih =>
    have hx := h x (List.mem_cons_self x rest)
    have ih2 := ih (fun y hy => h y (List.mem_cons_of_mem x hy))
    simp [mapE, hx, ih2]

lemma strListFromJson_map (fs : List (List Nat)) :
    strListFromJson (Json.arr (fs.map Json.str)) = .ok fs := by
  simp only [strListFromJson]
  exact mapE_map_ok Json.str strOf fs (fun x _ => rfl)

lemma kindFromJson_kindToJson (k : DependencyKind) : kindFromJson (kindToJson k) = .ok k := by
  cases k <;> rfl

lemma decodeDependency_encode (d : Dependency) :
    decodeDependency (encodeDependency d) = .ok d := by
  obtain ⟨n, r, fs, o, df, t, k, p⟩ := d
  cases k with
  | none =>
    cases t <;> cases p <;>
      simp [encodeDependency, decodeDependency, reqStr, reqBool, reqField, optStr,
            optKindField, jLookup, strListFromJson_map, ok_bind, bs]
  | some kk =>
    cases kk <;> cases t <;> cases p <;>
      simp [encodeDependency, decodeDependency, reqStr, reqBool, reqField, optStr,
            optKindField, jLookup, strListFromJson_map, kindFromJson, kindToJson,
            ok_bind, bs]

lemma hexVal_hexDigitByte (n : Nat) (h : n < 16) : hexVal (hexDigitByte n) = some n := by
  interval_cases n <;> rfl

lemma hexDecode_hexEncode (xs : List Nat) (h : ∀ b ∈ xs, b < 256) :
    hexDecode (hexEncode xs) = some xs := by
  induction xs with
  | nil => rfl
  | cons b rest ih =>
    have hb : b < 256 := h b (List.mem_cons_self b rest)
    have h1 := hexVal_hexDigitByte (b / 16) (by omega)
    have h2 := hexVal_hexDigitByte (b % 16) (by omega)
    have ih2 := ih (fun y hy => h y (List.mem_cons_of_mem b hy))
    simp [hexEncode, hexDecode, h1, h2, ih2]
    omega

lemma featuresFromJson_map (fts : List (List Nat × List (List Nat))) :
    featuresFromJson (Json.obj (fts.map (fun kv => (kv.1, Json.arr (kv.2.map .str)))))
      = .ok fts := by
  simp only [featuresFromJson]
  refine mapE_map_ok _ _ fts (fun kv _ => ?_)
  cases kv with
  | mk a b => simp [strListFromJson_map]

lemma decodeVersion_encode (v : Version) (hlen : v.cksum.length = 32)
    (hbytes : ∀ b ∈ v.cksum, b < 256) :
    decodeVersion (encodeVersion v) = .ok v := by
  obtain ⟨n, vr, deps, ck, fts, y⟩ := v
  simp only at hlen hbytes
  simp [encodeVersion, decodeVersion, reqStr, reqBool, reqArr, reqField, jLookup, ok_bind,
        mapE_map_ok encodeDependency decodeDependency deps
          (fun d _ => decodeDependency_encode d),
        cksumFromHex, hexDecode_hexEncode ck hbytes, hlen, featuresFromJson_map, bs]

/-! ## C3 -/

/-- Whether a serialized object carries a given field. -/
def hasKey (j : Json) (key : List Nat) : Bool :=
  match j with
  | .obj fields => (jLookup fields key).isSome
  | _ => false

/-- A dependency whose stored kind is an explicit `Some(Normal)`, as decoded
from an index line that spells out `"kind":"normal"`. -/
def depKindNormal : Dependency :=
  { name := bs ("a"), req := bs ("1"), features := [], optional := false,
    default_features := true, target := none, kind := some .normal, package := none }

/-- C3 counterexample: a dependency whose `kind()` accessor equals `Normal`
but whose stored option is `Some(Normal)` is serialized WITH the `kind`
field — serialization omits the field iff the stored `Option` is `None`,
not iff the kind value equals `Normal` (the round trip itself still holds). -/
theorem c3_counterexample :
    depKindNormal.kindOrDefault = .normal
    ∧ hasKey (encodeDependency depKindNormal) (bs ("kind")) = true
    ∧ decodeDependency (encodeDependency depKindNormal) = .ok depKindNormal := by
  exact ⟨rfl, rfl, by decide⟩

/-- C3 amended: `decode (encode v) = v` for every constructible `Version`
(the `[u8; 32]` checksum invariant made explicit); on encode, the `kind`
and `package` fields are omitted iff the stored `Option` is absent; the
accessor re-applies the default, an absent stored kind reading as `Normal`. -/
theorem c3_roundtrip (v : Version) (hlen : v.cksum.length = 32)
    (hbytes : ∀ b ∈ v.cksum, b < 256) :
    decodeVersion (encodeVersion v) = .ok v
    ∧ (∀ d : Dependency,
        decodeDependency (encodeDependency d) = .ok d
        ∧ (hasKey (encodeDependency d) (bs ("kind")) = true ↔ d.kind ≠ none)
        ∧ (hasKey (encodeDependency d) (bs ("package")) = true ↔ d.package ≠ none)
        ∧ (d.kind = none → d.kindOrDefault = .normal)) := by
  refine ⟨decodeVersion_encode v hlen hbytes, fun d => ⟨decodeDependency_encode d, ?_, ?_, ?_⟩⟩
  · obtain ⟨n, r, fs, o, df, t, k, p⟩ := d
    cases k <;> cases p <;> simp [encodeDependency, hasKey, jLookup, bs]
  · obtain ⟨n, r, fs, o, df, t, k, p⟩ := d
    cases k <;> cases p <;> simp [encodeDependency, hasKey, jLookup, bs]
  · intro hk
    simp [Dependency.kindOrDefault, hk]

/-- C3 witness: the round trip evaluated at a concrete version whose
dependency stores no kind and no package. -/
theorem c3_roundtrip_witness :
    decodeVersion (encodeVersion
      { name := bs ("b"), vers := bs ("0.1"), deps := [depSerde],
        cksum := List.replicate 32 170,
        features := [(bs ("default"), [bs ("std")])], yanked := true })
      = .ok { name := bs ("b"), vers := bs ("0.1"), deps := [depSerde],
              cksum := List.replicate 32 170,
              features := [(bs ("default"), [bs ("std")])], yanked := true } := by
  exact (c3_roundtrip _ (by decide) (by decide)).1

/-! ## C5 -/

lemma bind_ok_inv {a b : Type} {x : Except DecodeError a} {f : a → Except DecodeError b}
    {y : b} (h : (x >>= f) = .ok y) : ∃ w, x = .ok w ∧ f w = .ok y := by
  cases x with
  | error e => rw [err_bind] at h; cases h
  | ok w => rw [ok_bind] at h; exact ⟨w, rfl, h⟩

lemma reqStr_ok_inv {fields : List (List Nat × Json)} {key s : List Nat}
    (h : reqStr fields key = .ok s) : jLookup fields key = some (.str s) := by
  unfold reqStr at h
  cases hj : jLookup fields key with
  | none => rw [hj] at h; cases h
  | some j => rw [hj] at h; cases j <;> simp_all

lemma cksumFromHex_ok_inv {s bytes : List Nat} (h : cksumFromHex s = .ok bytes) :
    hexDecode s = some bytes ∧ bytes.length = 32 := by
  unfold cksumFromHex at h
  split at h
  next found heq =>
    split at h
    next hl =>
      injection h with h2
      subst h2
      exact ⟨heq, hl⟩
    next hl => cases h
  next heq => cases h

lemma pure_eq_ok {a : Type} (x : a) : (pure x : Except DecodeError a) = .ok x := rfl

lemma decodeVersion_ok_cksum {j : Json} {v : Version} (h : decodeVersion j = .ok v) :
    ∃ fields s, j = .obj fields ∧ jLookup fields (bs ("cksum")) = some (.str s)
      ∧ hexDecode s = some v.cksum ∧ v.cksum.length = 32 := by
  cases j with
  | obj fields =>
    simp only [decodeVersion] at h
    obtain ⟨name, hn, h⟩ := bind_ok_inv h
    obtain ⟨vers, hv, h⟩ := bind_ok_inv h
    obtain ⟨depsJ, hdj, h⟩ := bind_ok_inv h
    obtain ⟨deps, hd, h⟩ := bind_ok_inv h
    obtain ⟨cksumS, hcs, h⟩ := bind_ok_inv h
    obtain ⟨cksum, hck, h⟩ := bind_ok_inv h
    obtain ⟨featuresJ, hfj, h⟩ := bind_ok_inv h
    obtain ⟨features, hf, h⟩ := bind_ok_inv h
    obtain ⟨yanked, hy, h⟩ := bind_ok_inv h
    rw [pure_eq_ok] at h
    injection h with h2
    subst h2
    obtain ⟨hhex, hlen⟩ := cksumFromHex_ok_inv hck
    exact ⟨fields, cksumS, rfl, reqStr_ok_inv hcs, hhex, hlen⟩
  | null => cases h
  | bool b => cases h
  | num n => cases h
  | str s => cases h
  | arr xs => cases h

/-- C5: decoding a record succeeds only when its `cksum` field is a hex
string that decodes to exactly 32 bytes; an object whose `cksum` decodes
to any other length (or is not hex) never decodes to a `Version` — the
decode errors instead of truncating or padding. -/
theorem c5_checksum_strict :
    (∀ (j : Json) (v : Version), decodeVersion j = .ok v →
      ∃ fields s, j = .obj fields ∧ jLookup fields (bs ("cksum")) = some (.str s)
        ∧ hexDecode s = some v.cksum ∧ v.cksum.length = 32)
    ∧ (∀ (fields : List (List Nat × Json)) (s : List Nat),
        jLookup fields (bs ("cksum")) = some (.str s) →
        (∀ bytes, hexDecode s = some bytes → bytes.length ≠ 32) →
        ∃ e, decodeVersion (.obj fields) = .error e) := by
  refine ⟨fun j v h => decodeVersion_ok_cksum h, fun fields s hs hbad => ?_⟩
  cases hdec : decodeVersion (.obj fields) with
  | error e => exact ⟨e, rfl⟩
  | ok v =>
    obtain ⟨fields2, s2, hobj, hlook, hhex, hlen⟩ := decodeVersion_ok_cksum hdec
    injection hobj with h2
    subst h2
    rw [hs] at hlook
    injection hlook with h3
    injection h3 with h4
    subst h4
    exact absurd hlen (hbad v.cksum hhex)

/-- C5 witness: a record whose `cksum` is a 63-character hex string is
rejected. -/
theorem c5_checksum_strict_witness :
    ∃ e, decodeVersion (.obj
      [(bs ("name"), .str (bs ("a"))), (bs ("vers"), .str (bs ("1"))),
       (bs ("deps"), .arr []), (bs ("cksum"), .str (List.replicate 63 48)),
       (bs ("features"), .obj []), (bs ("yanked"), .bool false)]) = .error e := by
  refine c5_checksum_strict.2 _ (List.replicate 63 48) rfl ?_
  intro bytes hb
  have hnone : hexDecode (List.replicate 63 48) = none := by decide
  rw [hnone] at hb
  cases hb

/-! ## C4 -/

lemma splitNl_ne_nil (bytes : List Nat) : splitNl bytes ≠ [] := by
  induction bytes with
  | nil => simp [splitNl]
  | cons b rest ih =>
    simp only [splitNl]
    split
    · simp
    · split
      · simp
      · simp

lemma mapE_ok_length {a b : Type} {g : a → Except DecodeError b} {xs : List a}
    {ys : List b} (h : mapE g xs = .ok ys) : ys.length = xs.length := by
  induction xs generalizing ys with
  | nil =>
    unfold mapE at h
    injection h with h2
    subst h2
    rfl
  | cons x rest ih =>
    unfold mapE at h
    split at h
    · cases h
    · split at h
      · cases h
      · injection h with h2
        subst h2
        simp [ih (by assumption)]

lemma from_slice_ok_inv {dec : List Nat → Except DecodeError Version} {bytes : List Nat}
    {c : Crate} (h : Crate.from_slice dec bytes = .ok c) :
    mapE dec (splitNl (trimNewlines bytes)) = .ok c.versions ∧ c.versions ≠ [] := by
  unfold Crate.from_slice at h
  split at h
  next e heq => cases h
  next versions heq =>
    split at h
    · cases h
    · injection h with h2
      subst h2
      refine ⟨heq, ?_⟩
      next hemp => simpa [List.isEmpty_iff] using hemp

lemma from_slice_ne_emptyHistory (dec : List Nat → Except DecodeError Version)
    (bytes : List Nat) :
    Crate.from_slice dec bytes ≠ .error .emptyHistory := by
  unfold Crate.from_slice
  split
  next e heq => simp
  next versions heq =>
    have hlen := mapE_ok_length heq
    have hsplit := splitNl_ne_nil (trimNewlines bytes)
    have hne : versions ≠ [] := by
      intro hnil
      subst hnil
      exact hsplit (List.length_eq_zero.mp hlen.symm)
    have hemp : versions.isEmpty = false := by
      cases versions with
      | nil => exact absurd rfl hne
      | cons a l => rfl
    simp [hemp]

lemma trimNewlines_replicate (k : Nat) : trimNewlines (List.replicate k 10) = [] := by
  have h := trimNewlines_append_replicate [] k
  simpa using h

/-- C4 counterexample: the empty file and the newline-only file are rejected
with the per-line decode error (the empty line is not a JSON value), not
with the dedicated empty-history error — that branch is unreachable. -/
theorem c4_counterexample :
    Crate.from_slice serdeFromSlice [] = .error (.decodeErr .badJson)
    ∧ Crate.from_slice serdeFromSlice [10, 10] = .error (.decodeErr .badJson)
    ∧ Crate.from_slice serdeFromSlice [] ≠ .error .emptyHistory
    ∧ Crate.from_slice serdeFromSlice [10, 10] ≠ .error .emptyHistory := by
  exact ⟨by decide, by decide, by decide, by decide⟩

/-- C4 amended: a zero-line file (empty, or only newlines) makes
`Crate::from_slice` fail with the decode error produced by the per-line
JSON decoder on the empty line — not with the empty-history error; no
input ever yields a `Crate` with zero records, and the empty-history
branch is unreachable for every input. -/
theorem c4_amended (dec : List Nat → Except DecodeError Version) (e : DecodeError)
    (hde : dec [] = .error e) (k : Nat) :
    Crate.from_slice dec (List.replicate k 10) = .error (.decodeErr e)
    ∧ (∀ bytes c, Crate.from_slice dec bytes = .ok c → c.versions ≠ [])
    ∧ (∀ bytes, Crate.from_slice dec bytes ≠ .error .emptyHistory) := by
  refine ⟨?_, fun bytes c h => (from_slice_ok_inv h).2,
          fun bytes => from_slice_ne_emptyHistory dec bytes⟩
  unfold Crate.from_slice
  rw [trimNewlines_replicate]
  simp [splitNl, mapE, hde]

/-- C4 witness: the amended statement evaluated with the concrete
`serde_json` line decoder on a two-newline file. -/
theorem c4_amended_witness :
    Crate.from_slice serdeFromSlice (List.replicate 2 10)
      = .error (.decodeErr .badJson) := by
  exact (c4_amended serdeFromSlice .badJson (by decide) 2).1

/-! ## C2 -/

/-- A filesystem fixture: exactly one file, at the shard path of `asdf`,
whose single line is not valid JSON. -/
def fsBad : List (List Nat) → Option (List Nat) :=
  fun p => if p = [bs ("as"), bs ("df"), bs ("asdf")] then some (bs ("x")) else none

/-- C2 counterexample: under `fsBad` the resolved path of `asdf` exists and
its content fails to parse, yet `Index::crate_` returns `None` — the parse
error is discarded by `.ok()`, not propagated, indistinguishable from the
file being absent. -/
theorem c2_counterexample :
    fsBad [bs ("as"), bs ("df"), bs ("asdf")] = some (bs ("x"))
    ∧ Crate.from_slice serdeFromSlice (bs ("x")) = .error (.decodeErr .badJson)
    ∧ crate_ fsBad serdeFromSlice (bs ("asdf")) = none := by
  exact ⟨by decide, by decide, by decide⟩

/-- C2 amended: both boundaries are lenient — `Index::crate_` returns `None`
whenever the file exists but fails to parse (the error is swallowed by
`.ok()`), and the bulk iterator yields exactly the successfully parsed
crates, skipping unreadable or unparsable paths. -/
theorem c2_amended (fs : List (List Nat) → Option (List Nat))
    (dec : List Nat → Except DecodeError Version) :
    (∀ name rel bytes e, resolveSegs name = some rel → fs rel = some bytes →
      Crate.from_slice dec bytes = .error e → crate_ fs dec name = none)
    ∧ (∀ (paths : List (List (List Nat))) (c : Crate),
        c ∈ cratesList fs dec paths ↔
          ∃ p ∈ paths, ∃ bytes, fs p = some bytes
            ∧ Crate.from_slice dec bytes = .ok c) := by
  constructor
  · intro name rel bytes e hres hfs herr
    simp [crate_, hres, hfs, herr, Except.toOption]
  · intro paths c
    induction paths with
    | nil => simp [cratesList]
    | cons p rest ih =>
      cases hf : fs p with
      | none => simp [cratesList, hf, ih]
      | some bytes =>
        cases hc : Crate.from_slice dec bytes with
        | error e => simp [cratesList, hf, hc, ih]
        | ok c2 =>
          simp only [cratesList, hf, hc, List.mem_cons]
          constructor
          · rintro (rfl | hmem)
            · exact ⟨p, Or.inl rfl, bytes, hf, hc⟩
            · obtain ⟨q, hq, b2, hfq, hcq⟩ := ih.mp hmem
              exact ⟨q, Or.inr hq, b2, hfq, hcq⟩
          · rintro ⟨q, hq, b2, hfq, hcq⟩
            rcases hq with rfl | hq2
            · rw [hf] at hfq
              injection hfq with hfq2
              subst hfq2
              rw [hc] at hcq
              injection hcq with hcq2
              exact Or.inl hcq2.symm
            · exact Or.inr (ih.mpr ⟨q, hq2, b2, hfq, hcq⟩)

/-- C2 witness: the lenient-lookup direction evaluated on the concrete
fixture of the counterexample. -/
theorem c2_amended_witness :
    crate_ fsBad serdeFromSlice (bs ("asdf")) = none := by
  exact (c2_amended fsBad serdeFromSlice).1 (bs ("asdf"))
    [bs ("as"), bs ("df"), bs ("asdf")] (bs ("x")) (.decodeErr .badJson)
    (by decide) (by decide) (by decide)

/-! ## C7 -/

/-- A concrete two-line index file: version `1.0.0` published first, then
version `0.9.0` published later (line order is publish order, not version
order). -/
def lineA : List Nat :=
  [123] ++ bs ("\"name\":\"a\",\"vers\":\"1.0.0\",\"deps\":[],\"cksum\":\"") ++
  List.replicate 64 48 ++ bs ("\",\"features\":") ++ [123, 125] ++
  bs (",\"yanked\":false") ++ [125]

def lineB : List Nat :=
  [123] ++ bs ("\"name\":\"a\",\"vers\":\"0.9.0\",\"deps\":[],\"cksum\":\"") ++
  List.replicate 64 97 ++ bs ("\",\"features\":") ++ [123, 125] ++
  bs (",\"yanked\":true") ++ [125]

def vA : Version :=
  { name := bs ("a"), vers := bs ("1.0.0"), deps := [],
    cksum := List.replicate 32 0, features := [], yanked := false }

def vB : Version :=
  { name := bs ("a"), vers := bs ("0.9.0"), deps := [],
    cksum := List.replicate 32 170, features := [], yanked := true }

def crateAB : Crate := { versions := [vA, vB] }

/-- C7: a successfully parsed `Crate` holds the per-line decoded records in
line order and is never empty; `earliest_version` is the first element and
`latest_version` the last (positional, no sorting or version comparison). -/
theorem c7_versions_order (dec : List Nat → Except DecodeError Version)
    (bytes : List Nat) (c : Crate) (h : Crate.from_slice dec bytes = .ok c) :
    ∃ hne : c.versions ≠ [],
      mapE dec (splitNl (trimNewlines bytes)) = .ok c.versions
      ∧ c.earliest_version hne = c.versions.head hne
      ∧ c.latest_version hne = c.versions.getLast hne := by
  obtain ⟨hmap, hne⟩ := from_slice_ok_inv h
  refine ⟨hne, hmap, ?_, ?_⟩
  · obtain ⟨vs⟩ := c
    cases vs with
    | nil => exact absurd rfl hne
    | cons a l => rfl
  · obtain ⟨vs⟩ := c
    simp [Crate.latest_version, List.getLast_eq_getElem, List.get_eq_getElem]

/-- C7 witness: the two-line fixture parses to `[vA, vB]` in line order,
with `earliest = vA` (first line) and `latest = vB` (last line) even
though `vB`'s version number is lower. -/
theorem c7_versions_order_witness :
    ∃ hne : crateAB.versions ≠ [],
      mapE serdeFromSlice (splitNl (trimNewlines (lineA ++ [10] ++ lineB)))
        = .ok crateAB.versions
      ∧ crateAB.earliest_version hne = crateAB.versions.head hne
      ∧ crateAB.latest_version hne = crateAB.versions.getLast hne := by
  exact c7_versions_order serdeFromSlice (lineA ++ [10] ++ lineB) crateAB (by decide)

end CratesIndex
